import Mathlib

/-!
Verification of `src/summaries.py` (Codextendo summarization helpers).

Shallow embedding of the payload-normalization layer (`_render_payload`),
the transcript reader (`_collect_segments`), the token-budget trimmer
(`_trim_segments`) and the incremental refresh orchestrator
(`refresh_summaries`), together with proofs about them.

Modelling conventions:
* JSON values carry `Int` numbers (no floats are needed for any verified
  property).
* Python exceptions are modelled by `Except String`: an `Except.error`
  marks an exception (`AttributeError`, `TypeError`, ...) propagating out
  of the translated function.
* External collaborators (the `tiktoken` encoder, `json.loads` on raw
  strings, `datetime.fromisoformat`, `hashlib.sha256`, the filesystem and
  the remote summarizer) are opaque function parameters, bundled in
  `Oracles`; all theorems are universally quantified over them.
-/

namespace Codextendo

/-- A parsed JSON value (`json.loads` result).  Numbers are modelled as
integers; floating point values never matter for the verified claims. -/
inductive Json where
  | null
  | bool (b : Bool)
  | num (n : Int)
  | str (s : String)
  | arr (items : List Json)
  | obj (fields : List (String × Json))
  deriving Repr, Inhabited

/-- Python truthiness of a parsed JSON value (`bool(x)`). -/
def truthy : Json → Bool
  | .null => false
  | .bool b => b
  | .num n => n != 0
  | .str s => !s.isEmpty
  | .arr items => !items.isEmpty
  | .obj fields => !fields.isEmpty

/-- Models `dict.get(key)` on a parsed JSON object (association list). -/
def assocGet (fields : List (String × Json)) (key : String) : Option Json :=
  match fields.find? (fun kv => kv.1 == key) with
  | some kv => some kv.2
  | none => none

/-- Models `\x7bk: v for k, v in payload.items() if k != "type"\x7d`. -/
def remove_key (fields : List (String × Json)) (key : String) : List (String × Json) :=
  fields.filter (fun kv => kv.1 != key)

/-- The whitespace set of Python `str.strip()` (ASCII part; the exotic
Unicode whitespace code points never appear in the verified claims). -/
def isPyWhitespace (c : Char) : Bool :=
  c == ' ' || c == '\t' || c == '\n' || c == '\r' || c == '\x0b' || c == '\x0c'

/-- Python `str.strip()`. -/
def pyStrip (s : String) : String :=
  String.mk (((s.data.dropWhile isPyWhitespace).reverse.dropWhile isPyWhitespace).reverse)

/-- Python `str.upper()` (ASCII; the claims never uppercase non-ASCII). -/
def pyUpper (s : String) : String :=
  String.mk (s.data.map Char.toUpper)

/-- Helper of `pySplit`: fold the characters into the current chunk and
the finished chunks. -/
def pySplitAux (sep : Char) : List Char → List Char × List (List Char)
  | [] => ([], [])
  | c :: rest =>
    let r := pySplitAux sep rest
    if c = sep then ([], r.1 :: r.2)
    else (c :: r.1, r.2)

/-- Python `str.split(sep)` for a one-character separator
(`"".split(sep) == [""]`). -/
def pySplit (s : String) (sep : Char) : List String :=
  let r := pySplitAux sep s.data
  (r.1 :: r.2).map String.mk

/-- One lowercase hex digit. -/
def hexDigit (n : Nat) : Char :=
  if n < 10 then Char.ofNat (48 + n) else Char.ofNat (87 + n)

/-- Four lowercase hex digits, as produced by `json.dumps` for control
characters. -/
def hex4 (n : Nat) : String :=
  String.mk [hexDigit (n / 4096 % 16), hexDigit (n / 256 % 16),
             hexDigit (n / 16 % 16), hexDigit (n % 16)]

/-- Escaping of one character inside a `json.dumps` string literal
(`ensure_ascii=False`: non-ASCII characters stay as they are). -/
def escapeJsonChar (c : Char) : String :=
  if c == '"' then "\\\""
  else if c == '\\' then "\\\\"
  else if c == '\n' then "\\n"
  else if c == '\r' then "\\r"
  else if c == '\t' then "\\t"
  else if c == '\x08' then "\\b"
  else if c == '\x0c' then "\\f"
  else if c.toNat < 32 then "\\u" ++ hex4 c.toNat
  else String.singleton c

/-- Models `json.dumps` rendering of a string literal body. -/
def jsonEscape (s : String) : String :=
  String.join (s.data.map escapeJsonChar)

/-- The indentation produced by `json.dumps(..., indent=2)` at a nesting
level. -/
def indentStr (lvl : Nat) : String :=
  String.mk (List.replicate (2 * lvl) ' ')

/-- Code-point comparison of strings, the order `sorted`/`sort_keys` uses. -/
def charListLe : List Char → List Char → Bool
  | [], _ => true
  | _ :: _, [] => false
  | a :: as, b :: bs =>
    if a.toNat < b.toNat then true
    else if b.toNat < a.toNat then false
    else charListLe as bs

/-- String `<=` by code points (Python's string order). -/
def strLe (a b : String) : Bool :=
  charListLe a.data b.data

/-- Insert a rendered field into a key-sorted list (JSON object keys are
unique, so stability is irrelevant). -/
def insertByKey (kv : String × String) : List (String × String) → List (String × String)
  | [] => [kv]
  | x :: xs => if strLe kv.1 x.1 then kv :: x :: xs else x :: insertByKey kv xs

/-- Sort rendered fields by key (`sort_keys=True`). -/
def sortByKey : List (String × String) → List (String × String)
  | [] => []
  | x :: xs => insertByKey x (sortByKey xs)

mutual

/-- Models `json.dumps(value, indent=2, ensure_ascii=False, sort_keys=True)` at a
given nesting level. -/
def formatJsonAt (lvl : Nat) : Json → String
  | .null => "null"
  | .bool true => "true"
  | .bool false => "false"
  | .num n => toString n
  | .str s => "\"" ++ jsonEscape s ++ "\""
  | .arr [] => "[]"
  | .arr (x :: xs) =>
    "[\n" ++
      String.intercalate ",\n"
        ((formatJsonItems (lvl + 1) (x :: xs)).map (fun r => indentStr (lvl + 1) ++ r)) ++
      "\n" ++ indentStr lvl ++ "]"
  | .obj [] => "\x7b\x7d"
  | .obj (f :: fs) =>
    "\x7b\n" ++
      String.intercalate ",\n"
        ((sortByKey (formatJsonFields (lvl + 1) (f :: fs))).map
          (fun kv => indentStr (lvl + 1) ++ "\"" ++ jsonEscape kv.1 ++ "\": " ++ kv.2)) ++
      "\n" ++ indentStr lvl ++ "\x7d"
termination_by structural j => j

/-- Render every array item at the given level. -/
def formatJsonItems (lvl : Nat) : List Json → List String
  | [] => []
  | x :: xs => formatJsonAt lvl x :: formatJsonItems lvl xs
termination_by structural l => l

/-- Render every object value at the given level, keeping the key. -/
def formatJsonFields (lvl : Nat) : List (String × Json) → List (String × String)
  | [] => []
  | (k, v) :: fs => (k, formatJsonAt lvl v) :: formatJsonFields lvl fs
termination_by structural l => l

end

/-- Models `_format_json(value)` = `json.dumps(value, indent=2, ensure_ascii=False,
sort_keys=True)`. -/
def format_json (v : Json) : String :=
  formatJsonAt 0 v

/-- Python `repr` escaping inside a single-quoted string literal.  (The
corner case where `repr` switches to double quotes is approximated; it is
never reachable in the verified claims.) -/
def reprEscapeChar (c : Char) : String :=
  if c == '\\' then "\\\\"
  else if c == '\x27' then "\\\x27"
  else if c == '\n' then "\\n"
  else if c == '\r' then "\\r"
  else if c == '\t' then "\\t"
  else if c.toNat < 32 then "\\x" ++ String.mk [hexDigit (c.toNat / 16), hexDigit (c.toNat % 16)]
  else String.singleton c

mutual

/-- Python `repr` of a parsed JSON value. -/
def pyRepr : Json → String
  | .null => "None"
  | .bool true => "True"
  | .bool false => "False"
  | .num n => toString n
  | .str s => "\x27" ++ String.join (s.data.map reprEscapeChar) ++ "\x27"
  | .arr [] => "[]"
  | .arr (x :: xs) => "[" ++ String.intercalate ", " (pyReprItems (x :: xs)) ++ "]"
  | .obj [] => "\x7b\x7d"
  | .obj (f :: fs) => "\x7b" ++ String.intercalate ", " (pyReprFields (f :: fs)) ++ "\x7d"
termination_by structural j => j

/-- Models `repr` of every list element. -/
def pyReprItems : List Json → List String
  | [] => []
  | x :: xs => pyRepr x :: pyReprItems xs
termination_by structural l => l

/-- Models `repr` of every dict entry (`'key': value`). -/
def pyReprFields : List (String × Json) → List String
  | [] => []
  | (k, v) :: fs =>
    ("\x27" ++ String.join (k.data.map reprEscapeChar) ++ "\x27: " ++ pyRepr v) :: pyReprFields fs
termination_by structural l => l

end

/-- Python `str` of a parsed JSON value (what an f-string interpolates). -/
def pyStr (j : Json) : String :=
  match j with
  | .str s => s
  | _ => pyRepr j

/-! ## Segments and the token-budget trimmer (`_trim_segments`) -/

/-- One normalized transcript segment, an element of the `segments` list
built by `_collect_segments`.  `timestamp` holds the already
`isoformat`-ed string, exactly as the Python dict does. -/
structure Seg where
  header : String
  text : String
  combined : String
  payload_type : Option Json
  timestamp : Option String
  deriving Repr, Inhabited

/-- Models `TokenCounter.count` when `tiktoken` is unavailable:
`max(1, len(text) // 4)`.  When the encoder is available the counter is an
arbitrary function `String → Nat`; all trimming theorems are quantified
over it. -/
def fallback_count (text : String) : Nat :=
  max 1 (text.length / 4)

/-- Models `sum(counter.count(seg["combined"]) for seg in segs)`. -/
def sum_tokens (count : String → Nat) (segs : List Seg) : Nat :=
  (segs.map (fun seg => count seg.combined)).sum

/-- The greedy cut of `_trim_segments` (lines 240-246 of the source):
starting from the whole list with `running = total`, drop leading segments
while more than one segment remains past the cut and the running total
still exceeds the budget; returns `segments[start_index:]`. -/
def trim_cut (count : String → Nat) (maxTokens : Int) : List Seg → Nat → List Seg
  | [], _ => []
  | [seg], _ => [seg]
  | seg :: seg2 :: rest, running =>
    if (running : Int) > maxTokens then
      trim_cut count maxTokens (seg2 :: rest) (running - count seg.combined)
    else
      seg :: seg2 :: rest

/-- The `if not trimmed` fallback of `_trim_segments` (lines 250-252):
keep only the most recent segment.  (Dead code in the source: the greedy
cut never empties the list; kept for fidelity.) -/
def forced_keep (count : String → Nat) (segs : List Seg) : List Seg × Nat :=
  match segs.getLast? with
  | some seg => ([seg], count seg.combined)
  | none => ([], 0)

/-- The safety pass of `_trim_segments` (lines 255-257): while more than
one kept segment remains and the kept total still exceeds the budget, pop
from the front, subtracting the popped segment's token count. -/
def safety_pass (count : String → Nat) (maxTokens : Int) : List Seg → Nat → List Seg × Nat
  | seg :: seg2 :: rest, toks =>
    if (toks : Int) > maxTokens then
      safety_pass count maxTokens (seg2 :: rest) (toks - count seg.combined)
    else
      (seg :: seg2 :: rest, toks)
  | l, toks => (l, toks)

/-- Models `_trim_segments(segments, max_tokens, counter)`: returns the kept
segments, the `truncated` flag and the kept token total. -/
def trim_segments (count : String → Nat) (segments : List Seg) (maxTokens : Int) :
    List Seg × Bool × Nat :=
  if segments.isEmpty then (segments, false, 0)
  else if maxTokens ≤ 0 then (segments, false, sum_tokens count segments)
  else if (sum_tokens count segments : Int) ≤ maxTokens then
    (segments, false, sum_tokens count segments)
  else
    let trimmed := trim_cut count maxTokens segments (sum_tokens count segments)
    let kept := if trimmed.isEmpty then forced_keep count segments
                else (trimmed, sum_tokens count trimmed)
    let final := safety_pass count maxTokens kept.1 kept.2
    (final.1, true, final.2)

/-! ## Payload normalization (`_render_payload`) -/

/-- The known payload kinds of `_render_payload`'s dispatch chain. -/
def knownKinds : List String :=
  ["message", "user_message", "agent_message", "agent_reasoning", "reasoning",
   "function_call", "function_call_output", "token_count", "turn_aborted", "event_msg"]

/-- Models `ptype == k` for the string literal `k` (Python `==` between the
`type` field and a string constant). -/
def isKind (ptype : Option Json) (k : String) : Bool :=
  match ptype with
  | some (.str s) => s == k
  | _ => false

/-- Models `payload.get(key, "")` followed by a string method: absent becomes
`""`, a non-string raises. -/
def get_str_field (fields : List (String × Json)) (key : String) : Except String String :=
  match assocGet fields key with
  | none => pure ""
  | some (.str s) => pure s
  | some _ => Except.error "AttributeError: str method on non-string"

/-- Models `for chunk in payload.get("content") or []`: a falsy value iterates as
empty, a list yields its items, a string its characters, a dict its keys,
and a truthy number/bool raises `TypeError`. -/
def chunk_iterable (j : Option Json) : Except String (List Json) :=
  match j with
  | none => pure []
  | some v =>
    if truthy v then
      match v with
      | .arr items => pure items
      | .str s => pure (s.data.map (fun c => Json.str (String.singleton c)))
      | .obj fields => pure (fields.map (fun kv => Json.str kv.1))
      | _ => Except.error "TypeError: not iterable"
    else pure []

/-- Models `[chunk.get("text", "") for chunk in chunks if isinstance(chunk, dict)]`,
raising where the later `join` would raise on a non-string part. -/
def text_parts : List Json → Except String (List String)
  | [] => pure []
  | Json.obj fields :: rest => do
    let t ← match assocGet fields "text" with
      | none => pure ""
      | some (.str s) => pure s
      | some _ => Except.error "TypeError: join on non-string"
    let ts ← text_parts rest
    pure (t :: ts)
  | _ :: rest => text_parts rest

/-- Models `(ptype or "UNKNOWN").upper()`: a falsy kind becomes `"UNKNOWN"`, a
truthy string is uppercased, a truthy non-string raises
`AttributeError`. -/
def unknown_label (ptype : Option Json) : Except String String :=
  match ptype with
  | none => pure "UNKNOWN"
  | some j =>
    if truthy j then
      match j with
      | .str s => pure (pyUpper s)
      | _ => Except.error "AttributeError: upper"
    else pure "UNKNOWN"

/-- The dispatch chain of `_render_payload` (lines 119-181): produces the
header and the optional raw content of the segment, before the common
strip-and-drop tail. -/
def render_dispatch (parseStr : String → Option Json) (payload : List (String × Json))
    (ptype : Option Json) : Except String (String × Option String) :=
  if isKind ptype "message" then do
    let role ← match assocGet payload "role" with
      | none => pure "unknown"
      | some (.str s) => pure s
      | some _ => Except.error "AttributeError: upper"
    let chunks ← chunk_iterable (assocGet payload "content")
    let parts ← text_parts chunks
    let content := pyStrip (String.join parts)
    if content.isEmpty then
      pure (pyUpper role, none)
    else
      pure (pyUpper role, some content)
  else if isKind ptype "user_message" then do
    let msg ← get_str_field payload "message"
    pure (pyUpper "user_message", some (pyStrip msg))
  else if isKind ptype "agent_message" then do
    let msg ← get_str_field payload "message"
    pure (pyUpper "agent_message", some (pyStrip msg))
  else if isKind ptype "agent_reasoning" then do
    let t ← get_str_field payload "text"
    pure ("AGENT_REASONING", some (pyStrip t))
  else if isKind ptype "reasoning" then do
    let content ← match assocGet payload "summary" with
      | some (.arr items) => do
        let parts ← text_parts items
        pure (some (pyStrip (String.intercalate "\n" parts)))
      | some (.obj fields) => do
        let t ← get_str_field fields "text"
        pure (some (pyStrip t))
      | _ => pure (none : Option String)
    let content := if content = none ∨ content = some "" then
        match assocGet payload "encrypted_content" with
        | some enc => if truthy enc then some "<encrypted reasoning content>" else content
        | none => content
      else content
    pure ("REASONING", content)
  else if isKind ptype "function_call" then
    let name := (assocGet payload "name").getD (Json.str "")
    let pfx := pyStrip ("FUNCTION_CALL " ++ pyStr name)
    let content := match assocGet payload "arguments" with
      | some (.str s) =>
        match parseStr s with
        | some parsed => format_json parsed
        | none => s
      | some j => format_json j
      | none => format_json Json.null
    pure (pfx, some content)
  else if isKind ptype "function_call_output" then
    let callId := (assocGet payload "call_id").getD (Json.str "")
    let pfx := pyStrip ("FUNCTION_OUTPUT " ++ pyStr callId)
    let content := match assocGet payload "output" with
      | some (Json.obj fields) => format_json (Json.obj fields)
      | some (Json.arr items) => format_json (Json.arr items)
      | some j => if truthy j then pyStrip (pyStr j) else pyStrip ""
      | none => pyStrip ""
    pure (pfx, some content)
  else if isKind ptype "token_count" then
    pure ("TOKEN_COUNT", some (format_json (Json.obj
      [("info", (assocGet payload "info").getD Json.null),
       ("rate_limits", (assocGet payload "rate_limits").getD Json.null)])))
  else if isKind ptype "turn_aborted" then
    pure ("TURN_ABORTED", some (format_json (Json.obj (remove_key payload "type"))))
  else if isKind ptype "event_msg" then
    pure ("EVENT", some (format_json (Json.obj (remove_key payload "type"))))
  else do
    let pfx ← unknown_label ptype
    pure (pfx, some (format_json (Json.obj (remove_key payload "type"))))

/-- The common tail of `_render_payload` (lines 183-188): a `None`
content is dropped, otherwise the content is stripped and an
empty-after-strip segment is dropped. -/
def render_tail (pc : String × Option String) : Except String (Option (String × String)) :=
  match pc.2 with
  | none => pure none
  | some content0 =>
    let content := pyStrip content0
    if content.isEmpty then pure none
    else pure (some (pc.1, content))

/-- Models `_render_payload(payload)`: `none` models Python's `return None`
(segment dropped), `some (header, text)` a produced segment, and
`Except.error` an exception escaping the function. -/
def render_payload (parseStr : String → Option Json) (payload : List (String × Json)) :
    Except String (Option (String × String)) :=
  (render_dispatch parseStr payload (assocGet payload "type")).bind render_tail

/-! ## The transcript reader (`_collect_segments`) -/

/-- The external collaborators of the embedded code, as opaque functions:

* `parseStr` — `json.loads` on one raw string (`none` = `JSONDecodeError`);
* `fromiso` — `datetime.fromisoformat` plus time-zone normalization over
  an ordered timestamp type `τ` (`none` = `ValueError`);
* `isoformat` — `datetime.isoformat`;
* `sha256hex` — `hashlib.sha256(...).hexdigest()` over the accumulated
  digest byte stream (modelled at the character level: UTF-8 encoding is
  injective and maps the NUL character to the NUL byte);
* `fs` — the filesystem: transcript path to its list of lines;
* `remote` — the effectful tail of a single summarization (prompt
  assembly, the OpenAI call and the JSON/Markdown/history writes), which
  succeeds or raises per path;
* `count` — `TokenCounter.count`.

All theorems are universally quantified over these. -/
structure Oracles (τ : Type) where
  parseStr : String → Option Json
  fromiso : String → Option τ
  isoformat : τ → String
  sha256hex : List Char → String
  fs : String → List String
  remote : String → Except String Unit
  count : String → Nat

/-- Models `_parse_timestamp(raw)` applied to the chosen timestamp field: a falsy
value yields `None`, a truthy string is parsed after `replace("Z",
"+00:00")`, and a truthy non-string raises. -/
def parse_timestamp {τ : Type} (fromiso : String → Option τ) (raw : Option Json) :
    Except String (Option τ) :=
  match raw with
  | none => pure none
  | some j =>
    if truthy j then
      match j with
      | .str s => pure (fromiso (s.replace "Z" "+00:00"))
      | _ => Except.error "AttributeError: replace"
    else pure none

/-- The byte stream fed to the running digest: for every accepted segment,
`header` then `b"\0"` then `text` (lines 213-215 of the source). -/
def digest_input : List (String × String) → List Char
  | [] => []
  | (h, t) :: rest => h.data ++ '\x00' :: (t.data ++ digest_input rest)

variable {τ : Type} [LinearOrder τ]

/-- Models `data.get(...)` requires the parsed record to be an object; a
JSON-parseable non-object line raises `AttributeError`. -/
def record_fields : Json → Except String (List (String × Json))
  | Json.obj fields => pure fields
  | _ => Except.error "AttributeError: get on non-object record"

/-- Models `payload = data.get("payload") or \x7b\x7d` followed by the first
`payload.get(...)`: a falsy payload is replaced by the empty dict, a
truthy non-object raises. -/
def payload_fields (dataFields : List (String × Json)) : Except String (List (String × Json)) :=
  match assocGet dataFields "payload" with
  | none => pure []
  | some j =>
    if truthy j then
      match j with
      | Json.obj fields => pure fields
      | _ => Except.error "AttributeError: get on non-object payload"
    else pure []

/-- Models `payload.get("timestamp") or data.get("timestamp")`. -/
def choose_ts_raw (payload dataFields : List (String × Json)) : Option Json :=
  match assocGet payload "timestamp" with
  | some j => if truthy j then some j else assocGet dataFields "timestamp"
  | none => assocGet dataFields "timestamp"

/-- Models `if ts and (latest_ts is None or ts > latest_ts): latest_ts = ts`. -/
def update_latest (ts : Option τ) (latest : Option τ) : Option τ :=
  match ts, latest with
  | some t, none => some t
  | some t, some l => if l < t then some t else some l
  | none, l => l

/-- One iteration of the `_collect_segments` loop over a raw line,
threading the accumulated segments, the latest timestamp and the digest
stream. -/
def collect_line (O : Oracles τ) (acc : List Seg × Option τ × List Char) (raw : String) :
    Except String (List Seg × Option τ × List Char) := do
  match O.parseStr raw with
  | none => pure acc
  | some data => do
    let dataFields ← record_fields data
    let payload ← payload_fields dataFields
    let ts ← parse_timestamp O.fromiso (choose_ts_raw payload dataFields)
    let latest := update_latest ts acc.2.1
    let rendered ← render_payload O.parseStr payload
    match rendered with
    | none => pure (acc.1, latest, acc.2.2)
    | some (header, text) =>
      pure (acc.1 ++ [{ header := header, text := text,
                        combined := header ++ ":\n" ++ pyStrip text,
                        payload_type := assocGet payload "type",
                        timestamp := ts.map O.isoformat }],
            latest,
            acc.2.2 ++ (header.data ++ '\x00' :: text.data))

/-- Models `_collect_segments(path)` over the file's lines: the segments in
encounter order, the latest event timestamp, and the hex digest of the
accumulated stream. -/
def collect_segments (O : Oracles τ) (lines : List String) :
    Except String (List Seg × Option τ × String) := do
  let res ← lines.foldlM (collect_line O) ([], none, [])
  pure (res.1, res.2.1, O.sha256hex res.2.2)

/-! ## Session identity and the refresh orchestrator -/

/-- Models `pathlib.Path(p).stem`: the final path component without its last
extension. -/
def path_stem (p : String) : String :=
  let name := (pySplit p '/').getLastD p
  let parts := pySplit name '.'
  let stem0 := String.intercalate "." parts.dropLast
  if stem0.isEmpty then name else stem0

/-- Models `_derive_session_id(path)`: the last five dash-separated tokens of the
stem when present and non-empty, else the full stem. -/
def derive_session_id (p : String) : String :=
  let stem := path_stem p
  let parts := pySplit stem '-' 
  if parts.length ≥ 5 then
    let tail := parts.drop (parts.length - 5)
    if tail.all (fun s => !s.isEmpty) then String.intercalate "-" tail
    else stem
  else stem

/-- The slice of a persisted index record that the refresh staleness check
reads (`entry.get("digest")` and `entry.get("latest_timestamp")`); the
other record fields never influence control flow. -/
structure IndexEntry where
  digest : String
  latest_timestamp : Option String
  deriving DecidableEq, Repr

/-- The persisted index: a JSON object mapping session id to record,
modelled as an association list. -/
abbrev Index := List (String × IndexEntry)

/-- Dictionary lookup `index_data.get(session_id)`. -/
def get_entry (idx : Index) (sid : String) : Option IndexEntry :=
  match idx.find? (fun kv => kv.1 == sid) with
  | some kv => some kv.2
  | none => none

/-- Dictionary assignment `index_data[session_id] = record`. -/
def set_entry (idx : Index) (sid : String) (e : IndexEntry) : Index :=
  match idx with
  | [] => [(sid, e)]
  | kv :: rest => if kv.1 == sid then (sid, e) :: rest else kv :: set_entry rest sid e

/-- Whether an embedded Python call returned normally. -/
def is_ok {α : Type} : Except String α → Bool
  | .ok _ => true
  | .error _ => false

/-- Model of `summarize_session` as far as the refresh index is concerned:
re-read the transcript, fail on empty content, trim, run the external
tail (`remote`), and produce the record fields the index consumes.  The
`maxTokens` budget only feeds the trimmer. -/
def summarize_session (O : Oracles τ) (maxTokens : Int) (p : String) :
    Except String IndexEntry := do
  let res ← collect_segments O (O.fs p)
  if res.1.isEmpty then throw "No message content found in session."
  let _trimmed := trim_segments O.count res.1 maxTokens
  let _ ← O.remote p
  pure { digest := res.2.2, latest_timestamp := res.2.1.map O.isoformat }

/-- The selection loop of `refresh_summaries` (lines 600-616): decide for
every enumerated transcript whether it must be (re-)summarized.
`if force or entry is None` is split into the entry lookup and the
`force` test (both are pure, so the evaluation order is immaterial). -/
def select_to_process (O : Oracles τ) (index : Index) (force : Bool) :
    List String → Except String (List String)
  | [] => pure []
  | p :: rest => do
    match get_entry index (derive_session_id p) with
    | none => pure (p :: (← select_to_process O index force rest))
    | some entry =>
      if force then
        pure (p :: (← select_to_process O index force rest))
      else do
        let res ← collect_segments O (O.fs p)
        if res.1.isEmpty then select_to_process O index force rest
        else if res.2.2 ≠ entry.digest ∨ res.2.1.map O.isoformat ≠ entry.latest_timestamp then
          pure (p :: (← select_to_process O index force rest))
        else select_to_process O index force rest

/-- The processing loop of `refresh_summaries` (lines 624-645): a failed
summarization is logged and skipped, a successful one overwrites the
in-memory index entry for the session id. -/
def process_all (O : Oracles τ) (maxTokens : Int) : Index → List String → Index
  | idx, [] => idx
  | idx, p :: rest =>
    match summarize_session O maxTokens p with
    | .error _ => process_all O maxTokens idx rest
    | .ok record => process_all O maxTokens (set_entry idx (derive_session_id p) record) rest

/-- What a `refresh_summaries` run produced: the dispatched transcripts,
the final in-memory index, and whether it printed "All summaries are up
to date" and returned before rewriting the index file. -/
structure RefreshOutcome where
  toProcess : List String
  newIndex : Index
  upToDate : Bool
  deriving DecidableEq, Repr

/-- Models `refresh_summaries(sessions_dir, ...)` over the already enumerated,
mtime-sorted and limit-sliced session list.  When nothing is selected the
index file is left untouched; otherwise the updated index is written at
the end of the batch. -/
def refresh_summaries (O : Oracles τ) (maxTokens : Int) (index : Index)
    (sessions : List String) (force : Bool) : Except String RefreshOutcome := do
  let tp ← select_to_process O index force sessions
  if tp.isEmpty then
    pure ⟨[], index, true⟩
  else
    pure ⟨tp, process_all O maxTokens index tp, false⟩

/-! ## Concrete fixtures

Concrete segments, transcript lines and oracles used to evaluate the
theorems on explicit inputs.  `exOracles` instantiates the timestamp type
with `Int`, the hex digest with the identity embedding of the stream, and
`json.loads` with a finite table of lines. -/

/-- A `user_message` transcript record carrying message `m`. -/
def mkUserMsg (m : String) : Json :=
  Json.obj [("payload", Json.obj [("type", Json.str "user_message"), ("message", Json.str m)])]

/-- Concrete oracle instantiation for evaluating theorems. -/
def exOracles : Oracles Int where
  parseStr := fun s =>
    if s = "m1" then some (mkUserMsg "a")
    else if s = "m2" then some (mkUserMsg "b")
    else if s = "m3" then some (mkUserMsg "aUSER_MESSAGE\x00b")
    else if s = "42" then some (Json.num 42)
    else none
  fromiso := fun _ => none
  isoformat := fun n => toString n
  sha256hex := fun l => String.mk l
  fs := fun p =>
    if p = "good-a-b-c-d.jsonl" then ["m1"]
    else if p = "dir/p-q-r-s-t.jsonl" then ["m1"]
    else ["junk"]
  remote := fun _ => Except.ok ()
  count := fallback_count

/-- A segment whose `combined` text is 32 characters (8 fallback tokens). -/
def exSegA : Seg := ⟨"H", "t", "aaaaaaaaaaaaaaaaaaaaaaaaaaaaaaaa", none, none⟩

/-- A segment whose `combined` text is 8 characters (2 fallback tokens). -/
def exSegB : Seg := ⟨"H", "t", "bbbbbbbb", none, none⟩

/-- A segment whose `combined` text is 4 characters (1 fallback token). -/
def exSegC : Seg := ⟨"H", "t", "cccc", none, none⟩

/-- A segment whose `combined` text is 40 characters (10 fallback tokens). -/
def exSegBig : Seg := ⟨"H", "t", "dddddddddddddddddddddddddddddddddddddddd", none, none⟩

/-! ## Lemmas about the trimmer -/

@[simp] theorem sum_tokens_nil (count : String → Nat) : sum_tokens count [] = 0 := rfl

@[simp] theorem sum_tokens_cons (count : String → Nat) (seg : Seg) (l : List Seg) :
    sum_tokens count (seg :: l) = count seg.combined + sum_tokens count l := by
  simp [sum_tokens]

theorem trim_cut_suffix (count : String → Nat) (maxTokens : Int) :
    ∀ (l : List Seg) (running : Nat), trim_cut count maxTokens l running <:+ l
  | [], _ => by simp [trim_cut]
  | [seg], _ => by simp [trim_cut]
  | seg :: seg2 :: rest, running => by
    rw [trim_cut]
    split
    · exact (trim_cut_suffix count maxTokens (seg2 :: rest) _).trans (List.suffix_cons seg _)
    · exact List.suffix_refl _

theorem trim_cut_ne_nil (count : String → Nat) (maxTokens : Int) :
    ∀ (l : List Seg) (running : Nat), l ≠ [] → trim_cut count maxTokens l running ≠ []
  | [], _, h => absurd rfl h
  | [seg], _, _ => by simp [trim_cut]
  | seg :: seg2 :: rest, running, _ => by
    rw [trim_cut]
    split
    · exact trim_cut_ne_nil count maxTokens (seg2 :: rest) _ (by simp)
    · simp

theorem safety_pass_suffix (count : String → Nat) (maxTokens : Int) :
    ∀ (l : List Seg) (toks : Nat), (safety_pass count maxTokens l toks).1 <:+ l
  | [], _ => by simp [safety_pass]
  | [seg], _ => by simp [safety_pass]
  | seg :: seg2 :: rest, toks => by
    rw [safety_pass]
    split
    · exact (safety_pass_suffix count maxTokens (seg2 :: rest) _).trans (List.suffix_cons seg _)
    · exact List.suffix_refl _

theorem safety_pass_ne_nil (count : String → Nat) (maxTokens : Int) :
    ∀ (l : List Seg) (toks : Nat), l ≠ [] → (safety_pass count maxTokens l toks).1 ≠ []
  | [], _, h => absurd rfl h
  | [seg], _, _ => by simp [safety_pass]
  | seg :: seg2 :: rest, toks, _ => by
    rw [safety_pass]
    split
    · exact safety_pass_ne_nil count maxTokens (seg2 :: rest) _ (by simp)
    · simp

theorem safety_pass_post (count : String → Nat) (maxTokens : Int) :
    ∀ (l : List Seg) (toks : Nat), toks = sum_tokens count l → l ≠ [] →
      (sum_tokens count (safety_pass count maxTokens l toks).1 : Int) ≤ maxTokens ∨
        (safety_pass count maxTokens l toks).1.length = 1
  | [], _, _, hne => absurd rfl hne
  | [seg], toks, _, _ => by simp [safety_pass]
  | seg :: seg2 :: rest, toks, h, _ => by
    by_cases hgt : (toks : Int) > maxTokens
    · rw [safety_pass, if_pos hgt]
      exact safety_pass_post count maxTokens (seg2 :: rest) _
        (by subst h; simp) (by simp)
    · rw [safety_pass, if_neg hgt]
      left
      subst h
      exact not_lt.1 hgt

theorem safety_pass_noop (count : String → Nat) (maxTokens : Int) :
    ∀ (l : List Seg) (toks : Nat), (toks : Int) ≤ maxTokens →
      safety_pass count maxTokens l toks = (l, toks)
  | [], _, _ => by simp [safety_pass]
  | [seg], _, _ => by simp [safety_pass]
  | seg :: seg2 :: rest, toks, h => by
    rw [safety_pass, if_neg (not_lt.2 h)]

/-- Normal form of `_trim_segments` in the truncating branch. -/
theorem trim_segments_trunc (count : String → Nat) (segments : List Seg) (maxTokens : Int)
    (hne : segments ≠ []) (hover : maxTokens < (sum_tokens count segments : Int))
    (hmax : 0 < maxTokens) :
    trim_segments count segments maxTokens =
      ((safety_pass count maxTokens
          (trim_cut count maxTokens segments (sum_tokens count segments))
          (sum_tokens count (trim_cut count maxTokens segments (sum_tokens count segments)))).1,
        true,
        (safety_pass count maxTokens
          (trim_cut count maxTokens segments (sum_tokens count segments))
          (sum_tokens count (trim_cut count maxTokens segments (sum_tokens count segments)))).2) := by
  have hpos : ¬ maxTokens ≤ 0 := not_le.2 hmax
  have hemp : segments.isEmpty = false := by
    cases segments with
    | nil => exact absurd rfl hne
    | cons a l => rfl
  have hcut : (trim_cut count maxTokens segments (sum_tokens count segments)).isEmpty = false := by
    cases hc : trim_cut count maxTokens segments (sum_tokens count segments) with
    | nil => exact absurd hc (trim_cut_ne_nil count maxTokens segments _ hne)
    | cons a l => rfl
  rw [trim_segments]
  simp only [hemp, Bool.false_eq_true, if_false, if_neg hpos, if_neg (not_le.2 hover), hcut]

theorem isEmpty_false_of_ne_nil {α : Type} {l : List α} (h : l ≠ []) : l.isEmpty = false := by
  cases l with
  | nil => exact absurd rfl h
  | cons a t => rfl

/-- Normal form of `_trim_segments` when nothing is dropped. -/
theorem trim_segments_nottrunc (count : String → Nat) (segments : List Seg) (maxTokens : Int)
    (hz : ¬ maxTokens ≤ 0) (hover : (sum_tokens count segments : Int) ≤ maxTokens) :
    trim_segments count segments maxTokens = (segments, false, sum_tokens count segments) := by
  by_cases hne : segments = []
  · subst hne; simp [trim_segments]
  · rw [trim_segments]; simp [isEmpty_false_of_ne_nil hne, hz, hover]

theorem mem_of_getLast?_eq {α : Type} {l : List α} {a : α} (h : l.getLast? = some a) : a ∈ l := by
  obtain ⟨h2, rfl⟩ := List.mem_getLast?_eq_getLast (Option.mem_def.mpr h)
  exact List.getLast_mem h2

theorem count_le_sum_tokens (count : String → Nat) {seg : Seg} {l : List Seg}
    (h : seg ∈ l) : count seg.combined ≤ sum_tokens count l := by
  induction l with
  | nil => cases h
  | cons a t ih =>
    rcases List.mem_cons.1 h with rfl | h2
    · simp
    · have := ih h2
      simp only [sum_tokens_cons]
      omega

theorem trim_cut_keeps_last (count : String → Nat) (maxTokens : Int) :
    ∀ (l : List Seg) (s : Seg), l.getLast? = some s →
      maxTokens < (count s.combined : Int) →
      trim_cut count maxTokens l (sum_tokens count l) = [s]
  | [], s, h, _ => by simp at h
  | [seg], s, h, _ => by
    simp at h
    subst h
    simp [trim_cut]
  | seg :: seg2 :: rest, s, h, hbig => by
    have h2 : (seg2 :: rest).getLast? = some s := by
      simpa [List.getLast?_cons_cons] using h
    have hmem : s ∈ seg :: seg2 :: rest :=
      List.mem_cons_of_mem seg (mem_of_getLast?_eq h2)
    have hsum : (count s.combined : Int) ≤ (sum_tokens count (seg :: seg2 :: rest) : Int) := by
      exact_mod_cast count_le_sum_tokens count hmem
    rw [trim_cut, if_pos (lt_of_lt_of_le hbig hsum)]
    have hrun : sum_tokens count (seg :: seg2 :: rest) - count seg.combined =
        sum_tokens count (seg2 :: rest) := by simp
    rw [hrun]
    exact trim_cut_keeps_last count maxTokens (seg2 :: rest) s h2 hbig

theorem trim_cut_eq_drop (count : String → Nat) (maxTokens : Int) :
    ∀ (l : List Seg) (i : Nat), i < l.length →
      (sum_tokens count (l.drop i) : Int) ≤ maxTokens →
      (∀ j, j < i → maxTokens < (sum_tokens count (l.drop j) : Int)) →
      trim_cut count maxTokens l (sum_tokens count l) = l.drop i
  | [], i, hi, _, _ => by simp at hi
  | [seg], i, hi, hfit, hmin => by
    have h0 : i = 0 := by simp at hi; omega
    subst h0
    simp [trim_cut]
  | seg :: seg2 :: rest, i, hi, hfit, hmin => by
    cases i with
    | zero =>
      rw [trim_cut, if_neg (not_lt.2 (by simpa using hfit))]
      simp
    | succ i2 =>
      have h0 : maxTokens < (sum_tokens count (seg :: seg2 :: rest) : Int) := by
        simpa using hmin 0 (Nat.succ_pos _)
      rw [trim_cut, if_pos h0]
      have hrun : sum_tokens count (seg :: seg2 :: rest) - count seg.combined =
          sum_tokens count (seg2 :: rest) := by simp
      rw [hrun]
      have hrec := trim_cut_eq_drop count maxTokens (seg2 :: rest) i2
        (by simpa using hi) (by simpa using hfit)
        (fun j hj => by simpa using hmin (j + 1) (by omega))
      rw [hrec]
      rfl

/-! ## Claim theorems about the trimmer -/

/-- C1. For every segment sequence and every positive token budget,
the trimmer's output has total token count at most the budget or consists
of exactly one segment (the forced oversized keep), and the output is a
contiguous suffix of the input (no segment reordered or split). -/
theorem trim_segments_budget_or_singleton_suffix (count : String → Nat) (segments : List Seg)
    (maxTokens : Int) (hpos : 0 < maxTokens) :
    ((sum_tokens count (trim_segments count segments maxTokens).1 : Int) ≤ maxTokens ∨
      (trim_segments count segments maxTokens).1.length = 1) ∧
    (trim_segments count segments maxTokens).1 <:+ segments := by
  by_cases hne : segments = []
  · subst hne
    constructor
    · left
      simp [trim_segments]
      omega
    · simp [trim_segments]
  · by_cases hover : (sum_tokens count segments : Int) ≤ maxTokens
    · rw [trim_segments_nottrunc count segments maxTokens (not_le.2 hpos) hover]
      exact ⟨Or.inl hover, List.suffix_refl _⟩
    · rw [trim_segments_trunc count segments maxTokens hne (not_le.1 hover) hpos]
      refine ⟨?_, ?_⟩
      · exact safety_pass_post count maxTokens _ _ rfl
          (trim_cut_ne_nil count maxTokens segments _ hne)
      · exact (safety_pass_suffix count maxTokens _ _).trans
          (trim_cut_suffix count maxTokens segments _)

/-- Witness for C1: three segments of 8/2/1 fallback tokens against
budget 3. -/
theorem trim_segments_budget_or_singleton_suffix_witness :
    (0 : Int) < 3 ∧
    (((sum_tokens fallback_count (trim_segments fallback_count [exSegA, exSegB, exSegC] 3).1 : Int) ≤ 3 ∨
        (trim_segments fallback_count [exSegA, exSegB, exSegC] 3).1.length = 1) ∧
      (trim_segments fallback_count [exSegA, exSegB, exSegC] 3).1 <:+ [exSegA, exSegB, exSegC]) :=
  ⟨by decide,
   trim_segments_budget_or_singleton_suffix fallback_count [exSegA, exSegB, exSegC] 3 (by decide)⟩

/-- C2 counterexample. A single segment of 10 fallback tokens against
budget 3: the trimmer returns `truncated = true` although the output
equals the input, refuting `truncated == (output != input)`. -/
theorem trim_segments_truncated_counterexample :
    ¬ ((trim_segments fallback_count [exSegBig] 3).2.1 = true ↔
        (trim_segments fallback_count [exSegBig] 3).1 ≠ [exSegBig]) := by
  intro h
  have h1 : (trim_segments fallback_count [exSegBig] 3).2.1 = true := rfl
  have h2 : (trim_segments fallback_count [exSegBig] 3).1 = [exSegBig] := rfl
  exact (h.1 h1) h2

/-- C2 (amended). For every positive budget, `truncated = true` iff
the input's total token count exceeds the budget; the spec's equation
`truncated == (output != input)` holds whenever the input does not
consist of exactly one segment (a single forcibly-kept oversized segment
is reported truncated although the output equals the input). -/
theorem trim_segments_truncated_iff (count : String → Nat) (segments : List Seg)
    (maxTokens : Int) (hpos : 0 < maxTokens) :
    ((trim_segments count segments maxTokens).2.1 = true ↔
      maxTokens < (sum_tokens count segments : Int)) ∧
    (segments.length ≠ 1 →
      ((trim_segments count segments maxTokens).2.1 = true ↔
        (trim_segments count segments maxTokens).1 ≠ segments)) := by
  by_cases hne : segments = []
  · subst hne
    constructor
    · simp [trim_segments]
      omega
    · intro _
      simp [trim_segments]
  · by_cases hover : (sum_tokens count segments : Int) ≤ maxTokens
    · rw [trim_segments_nottrunc count segments maxTokens (not_le.2 hpos) hover]
      constructor
      · simp
        omega
      · intro _
        simp
    · have hover2 := not_le.1 hover
      have hlenpos : 0 < segments.length := List.length_pos.2 hne
      constructor
      · rw [trim_segments_trunc count segments maxTokens hne hover2 hpos]
        simpa using hover2
      · intro hlen1
        have hlen2 : 2 ≤ segments.length := by omega
        obtain ⟨s1, t1⟩ : ∃ s1 t1, segments = s1 :: t1 := by
          cases segments with
          | nil => exact absurd rfl hne
          | cons a t => exact ⟨a, t, rfl⟩
        obtain ⟨t1, rfl⟩ := t1
        obtain ⟨s2, rest, rfl⟩ : ∃ s2 rest, t1 = s2 :: rest := by
          cases t1 with
          | nil => simp at hlen2
          | cons a t => exact ⟨a, t, rfl⟩
        rw [trim_segments_trunc count (s1 :: s2 :: rest) maxTokens hne hover2 hpos]
        have hcut : trim_cut count maxTokens (s1 :: s2 :: rest)
            (sum_tokens count (s1 :: s2 :: rest)) <:+ s2 :: rest := by
          rw [trim_cut, if_pos hover2]
          have hrun : sum_tokens count (s1 :: s2 :: rest) - count s1.combined =
              sum_tokens count (s2 :: rest) := by simp
          rw [hrun]
          exact trim_cut_suffix count maxTokens (s2 :: rest) _
        have hsuf := (safety_pass_suffix count maxTokens
          (trim_cut count maxTokens (s1 :: s2 :: rest) (sum_tokens count (s1 :: s2 :: rest)))
          (sum_tokens count (trim_cut count maxTokens (s1 :: s2 :: rest)
            (sum_tokens count (s1 :: s2 :: rest))))).trans hcut
        have hlt := lt_of_le_of_lt hsuf.length_le (by simp : (s2 :: rest).length < (s1 :: s2 :: rest).length)
        constructor
        · intro _ heq
          rw [heq] at hlt
          omega
        · intro _
          rfl

/-- Witness for C2 (amended): two segments of 8/2 fallback tokens against
budget 3. -/
theorem trim_segments_truncated_iff_witness :
    (0 : Int) < 3 ∧
    ((trim_segments fallback_count [exSegA, exSegB] 3).2.1 = true ↔
      3 < (sum_tokens fallback_count [exSegA, exSegB] : Int)) :=
  ⟨by decide, (trim_segments_truncated_iff fallback_count [exSegA, exSegB] 3 (by decide)).1⟩

/-- C5. For every non-empty segment sequence and every budget the
output is non-empty; and whenever the budget is positive but even the
last segment alone exceeds it (the cut would consume every segment),
exactly the last segment is kept regardless of its size. -/
theorem trim_segments_never_empty (count : String → Nat) (segments : List Seg)
    (maxTokens : Int) (hne : segments ≠ []) :
    (trim_segments count segments maxTokens).1 ≠ [] ∧
    (∀ s, segments.getLast? = some s → 0 < maxTokens →
      maxTokens < (count s.combined : Int) →
      (trim_segments count segments maxTokens).1 = [s]) := by
  constructor
  · by_cases hz : maxTokens ≤ 0
    · rw [trim_segments]
      simp [isEmpty_false_of_ne_nil hne, hz]
      exact hne
    · by_cases hover : (sum_tokens count segments : Int) ≤ maxTokens
      · rw [trim_segments_nottrunc count segments maxTokens hz hover]
        exact hne
      · rw [trim_segments_trunc count segments maxTokens hne (not_le.1 hover) (by omega)]
        exact safety_pass_ne_nil count maxTokens _ _
          (trim_cut_ne_nil count maxTokens segments _ hne)
  · intro s hlast hmaxpos hbig
    have hmem : s ∈ segments := mem_of_getLast?_eq hlast
    have hcnt : (count s.combined : Int) ≤ (sum_tokens count segments : Int) := by
      exact_mod_cast count_le_sum_tokens count hmem
    have hover : maxTokens < (sum_tokens count segments : Int) := lt_of_lt_of_le hbig hcnt
    rw [trim_segments_trunc count segments maxTokens hne hover hmaxpos]
    rw [trim_cut_keeps_last count maxTokens segments s hlast hbig]
    simp [safety_pass]

/-- Witness for C5: one segment of 10 fallback tokens against budget 3. -/
theorem trim_segments_never_empty_witness :
    [exSegBig] ≠ ([] : List Seg) ∧ (trim_segments fallback_count [exSegBig] 3).1 = [exSegBig] := by
  have h := trim_segments_never_empty fallback_count [exSegBig] 3 (by simp)
  exact ⟨by simp, h.2 exSegBig rfl (by decide) (by decide)⟩

/-- C6. For every segment sequence, a budget `maxTokens <= 0` disables
trimming: the input is returned unmodified with `truncated = false` and
the exact total token count. -/
theorem trim_segments_budget_disabled (count : String → Nat) (segments : List Seg)
    (maxTokens : Int) (hz : maxTokens ≤ 0) :
    trim_segments count segments maxTokens = (segments, false, sum_tokens count segments) := by
  by_cases hne : segments = []
  · subst hne; simp [trim_segments]
  · rw [trim_segments]
    simp [isEmpty_false_of_ne_nil hne, hz]

/-- Witness for C6: two segments against budget 0. -/
theorem trim_segments_budget_disabled_witness :
    (0 : Int) ≤ 0 ∧ trim_segments fallback_count [exSegA, exSegB] 0 = ([exSegA, exSegB], false, 10) := by
  refine ⟨le_rfl, ?_⟩
  rw [trim_segments_budget_disabled fallback_count [exSegA, exSegB] 0 le_rfl]
  rfl

/-- C10. With a deterministic counter, whenever more than one segment
is present, the total exceeds the positive budget, and some non-empty
proper suffix fits the budget, the trimmer returns exactly the longest
such suffix — the safety pass removes nothing because the recomputed
suffix total equals the greedy running total. -/
theorem trim_segments_minimal_fitting_suffix (count : String → Nat) (segments : List Seg)
    (maxTokens : Int) (i : Nat) (hmax : 0 < maxTokens) (hi : 0 < i)
    (hlen : i < segments.length)
    (hfit : (sum_tokens count (segments.drop i) : Int) ≤ maxTokens)
    (hmin : ∀ j, j < i → maxTokens < (sum_tokens count (segments.drop j) : Int)) :
    trim_segments count segments maxTokens =
      (segments.drop i, true, sum_tokens count (segments.drop i)) := by
  have hne : segments ≠ [] := by
    cases segments with
    | nil => simp at hlen
    | cons a t => simp
  have hover : maxTokens < (sum_tokens count segments : Int) := by simpa using hmin 0 hi
  rw [trim_segments_trunc count segments maxTokens hne hover hmax]
  rw [trim_cut_eq_drop count maxTokens segments i hlen hfit hmin]
  rw [safety_pass_noop count maxTokens _ _ hfit]

/-- Witness for C10: segments of 8/2/1 fallback tokens, budget 3, longest
fitting proper suffix starts at index 1. -/
theorem trim_segments_minimal_fitting_suffix_witness :
    ((0 : Int) < 3 ∧ 0 < 1 ∧ 1 < ([exSegA, exSegB, exSegC] : List Seg).length ∧
      (sum_tokens fallback_count ([exSegA, exSegB, exSegC].drop 1) : Int) ≤ 3) ∧
    trim_segments fallback_count [exSegA, exSegB, exSegC] 3 = ([exSegB, exSegC], true, 3) := by
  refine ⟨⟨by decide, by decide, by decide, by decide⟩, ?_⟩
  have h := trim_segments_minimal_fitting_suffix fallback_count [exSegA, exSegB, exSegC] 3 1
    (by decide) (by decide) (by decide) (by decide)
    (fun j hj => by interval_cases j; decide)
  rw [h]
  rfl

/-! ## Lemmas about the payload normalizer -/

theorem pyStrip_eq_self {s : String}
    (h1 : ∀ c, s.data.head? = some c → isPyWhitespace c = false)
    (h2 : ∀ c, s.data.getLast? = some c → isPyWhitespace c = false) :
    pyStrip s = s := by
  unfold pyStrip
  have e1 : s.data.dropWhile isPyWhitespace = s.data := by
    cases hd : s.data with
    | nil => simp
    | cons c t =>
      rw [List.dropWhile_cons, if_neg]
      simp [h1 c (by rw [hd]; rfl)]
  rw [e1]
  have e2 : s.data.reverse.dropWhile isPyWhitespace = s.data.reverse := by
    cases hd : s.data.reverse with
    | nil => simp
    | cons c t =>
      rw [List.dropWhile_cons, if_neg]
      have : s.data.getLast? = some c := by
        rw [← List.head?_reverse, hd]
        rfl
      simp [h2 c this]
  rw [e2, List.reverse_reverse]

theorem format_json_obj_head (fields : List (String × Json)) :
    (format_json (Json.obj fields)).data.head? = some '\x7b' := by
  cases fields with
  | nil => rfl
  | cons f fs =>
    show (("\x7b\n" ++ _ ++ "\n" ++ indentStr 0 ++ "\x7d" : String)).data.head? = some '\x7b'
    rfl

theorem getLast?_data_append_brace (a : String) :
    (a ++ "\x7d").data.getLast? = some '\x7d' := by
  rw [show (a ++ "\x7d").data = a.data ++ "\x7d".data from rfl]
  rw [List.getLast?_append_of_ne_nil _ (by simp)]
  rfl

theorem format_json_obj_getLast (fields : List (String × Json)) :
    (format_json (Json.obj fields)).data.getLast? = some '\x7d' := by
  cases fields with
  | nil => rfl
  | cons f fs =>
    show (("\x7b\n" ++ _ ++ "\n" ++ indentStr 0 ++ "\x7d" : String)).data.getLast? = some '\x7d'
    exact getLast?_data_append_brace _

theorem isEmpty_false_of_ne_empty {s : String} (h : s ≠ "") : s.isEmpty = false := by
  rw [Bool.eq_false_iff]
  intro habs
  exact h ((String.isEmpty_iff s).1 habs)

theorem format_json_obj_ne_empty (fields : List (String × Json)) :
    (format_json (Json.obj fields)).isEmpty = false := by
  have h := format_json_obj_head fields
  apply isEmpty_false_of_ne_empty
  intro habs
  rw [habs] at h
  simp at h

theorem pyStrip_format_json_obj (fields : List (String × Json)) :
    pyStrip (format_json (Json.obj fields)) = format_json (Json.obj fields) := by
  apply pyStrip_eq_self
  · intro c hc
    rw [format_json_obj_head fields] at hc
    cases hc
    rfl
  · intro c hc
    rw [format_json_obj_getLast fields] at hc
    cases hc
    rfl

theorem isKind_false {ptype : Option Json} {k : String} (h : ptype ≠ some (Json.str k)) :
    isKind ptype k = false := by
  match ptype with
  | none => rfl
  | some .null => rfl
  | some (.bool b) => rfl
  | some (.num n) => rfl
  | some (.arr items) => rfl
  | some (.obj fields) => rfl
  | some (.str s) =>
    show (s == k) = false
    simp only [beq_eq_false_iff_ne, ne_eq]
    intro heq
    exact h (by rw [heq])

/-- With an unknown kind, `_render_payload`'s dispatch falls to the
fallback arm. -/
theorem render_dispatch_unknown (parseStr : String → Option Json)
    (payload : List (String × Json)) (ptype : Option Json)
    (hk : ∀ k ∈ knownKinds, ptype ≠ some (Json.str k)) :
    render_dispatch parseStr payload ptype =
      (unknown_label ptype).bind
        (fun pfx => pure (pfx, some (format_json (Json.obj (remove_key payload "type"))))) := by
  have h1 : isKind ptype "message" = false := isKind_false (hk "message" (by simp [knownKinds]))
  have h2 : isKind ptype "user_message" = false :=
    isKind_false (hk "user_message" (by simp [knownKinds]))
  have h3 : isKind ptype "agent_message" = false :=
    isKind_false (hk "agent_message" (by simp [knownKinds]))
  have h4 : isKind ptype "agent_reasoning" = false :=
    isKind_false (hk "agent_reasoning" (by simp [knownKinds]))
  have h5 : isKind ptype "reasoning" = false := isKind_false (hk "reasoning" (by simp [knownKinds]))
  have h6 : isKind ptype "function_call" = false :=
    isKind_false (hk "function_call" (by simp [knownKinds]))
  have h7 : isKind ptype "function_call_output" = false :=
    isKind_false (hk "function_call_output" (by simp [knownKinds]))
  have h8 : isKind ptype "token_count" = false :=
    isKind_false (hk "token_count" (by simp [knownKinds]))
  have h9 : isKind ptype "turn_aborted" = false :=
    isKind_false (hk "turn_aborted" (by simp [knownKinds]))
  have h10 : isKind ptype "event_msg" = false := isKind_false (hk "event_msg" (by simp [knownKinds]))
  rw [render_dispatch]
  simp only [h1, h2, h3, h4, h5, h6, h7, h8, h9, h10, Bool.false_eq_true, if_false]
  rfl

/-- C7 counterexample. An event whose declared kind is the truthy
non-string `7` — not among the known variants: `_render_payload` raises
`AttributeError` (`(ptype or "UNKNOWN").upper()` on an `int`) instead of
producing a segment, so the claimed segment is never produced and, inside
`_collect_segments`, the exception aborts the whole read. -/
theorem render_payload_nonstring_kind_counterexample :
    render_payload (fun _ => none) [("type", Json.num 7), ("detail", Json.str "x")] =
      .error "AttributeError: upper" := rfl

/-- C7 (amended). For an event whose declared kind is not among the
known variants: when the kind is a non-empty string the produced segment
has the uppercased kind as header; when the kind is absent or falsy
(including the empty string) the header is `UNKNOWN`; in both cases the
text is the structured rendering of the entire body minus the `type`
field, which is never empty (so the event is not dropped even when its
body is empty); a truthy non-string kind instead raises
`AttributeError`. -/
theorem render_payload_unknown_kind (parseStr : String → Option Json)
    (payload : List (String × Json))
    (hk : ∀ k ∈ knownKinds, assocGet payload "type" ≠ some (Json.str k)) :
    (∀ s, assocGet payload "type" = some (Json.str s) → s ≠ "" →
      render_payload parseStr payload =
        .ok (some (pyUpper s, format_json (Json.obj (remove_key payload "type"))))) ∧
    ((assocGet payload "type" = none ∨
        ∃ j, assocGet payload "type" = some j ∧ truthy j = false) →
      render_payload parseStr payload =
        .ok (some ("UNKNOWN", format_json (Json.obj (remove_key payload "type"))))) ∧
    (∀ j, assocGet payload "type" = some j → truthy j = true → (∀ s, j ≠ Json.str s) →
      render_payload parseStr payload = .error "AttributeError: upper") ∧
    (format_json (Json.obj (remove_key payload "type"))).isEmpty = false := by
  have hdis := render_dispatch_unknown parseStr payload (assocGet payload "type") hk
  have hstrip := pyStrip_format_json_obj (remove_key payload "type")
  have hne := format_json_obj_ne_empty (remove_key payload "type")
  refine ⟨?_, ?_, ?_, hne⟩
  · intro s hty hs
    have hul : unknown_label (assocGet payload "type") = pure (pyUpper s) := by
      rw [hty]
      have ht : truthy (Json.str s) = true := by
        simp [truthy, isEmpty_false_of_ne_empty hs]
      simp [unknown_label, ht]
    rw [render_payload, hdis, hul]
    show render_tail (pyUpper s, some (format_json (Json.obj (remove_key payload "type")))) = _
    simp only [render_tail, hstrip, hne, Bool.false_eq_true, if_false]
    rfl
  · intro hcase
    have hul : unknown_label (assocGet payload "type") = pure "UNKNOWN" := by
      rcases hcase with h | ⟨j, hj, hfalsy⟩
      · rw [h]; rfl
      · rw [hj]
        simp [unknown_label, hfalsy]
    rw [render_payload, hdis, hul]
    show render_tail ("UNKNOWN", some (format_json (Json.obj (remove_key payload "type")))) = _
    simp only [render_tail, hstrip, hne, Bool.false_eq_true, if_false]
    rfl
  · intro j hty htruthy hnstr
    have hul : unknown_label (assocGet payload "type") = .error "AttributeError: upper" := by
      rw [hty]
      cases j with
      | str s => exact absurd rfl (hnstr s)
      | null => simp [truthy] at htruthy
      | bool b =>
        have hb : b = true := by simpa [truthy] using htruthy
        subst hb
        rfl
      | num n => simp [unknown_label, htruthy]
      | arr items => simp [unknown_label, htruthy]
      | obj fields => simp [unknown_label, htruthy]
    rw [render_payload, hdis, hul]
    rfl

/-- Witness for C7 (amended): the unknown kind `"custom"` with body
`\x7b"a": 1\x7d`. -/
theorem render_payload_unknown_kind_witness :
    (∀ k ∈ knownKinds,
      assocGet [("type", Json.str "custom"), ("a", Json.num 1)] "type" ≠ some (Json.str k)) ∧
    render_payload (fun _ => none) [("type", Json.str "custom"), ("a", Json.num 1)] =
      .ok (some ("CUSTOM", "\x7b\n  \"a\": 1\n\x7d")) := by
  have hk : ∀ k ∈ knownKinds,
      assocGet [("type", Json.str "custom"), ("a", Json.num 1)] "type" ≠ some (Json.str k) := by
    intro k hkm
    rw [show assocGet [("type", Json.str "custom"), ("a", Json.num 1)] "type" =
      some (Json.str "custom") from rfl]
    simp only [ne_eq, Option.some.injEq, Json.str.injEq]
    rintro rfl
    revert hkm
    decide
  refine ⟨hk, ?_⟩
  have h := (render_payload_unknown_kind (fun _ => none)
    [("type", Json.str "custom"), ("a", Json.num 1)] hk).1 "custom" rfl (by decide)
  rw [h]
  rfl

/-! ## Lemmas about the transcript reader -/

@[simp] theorem except_bind_ok {α β : Type} (a : α) (f : α → Except String β) :
    ((Except.ok a : Except String α) >>= f) = f a := rfl

@[simp] theorem except_bind_error {α β : Type} (e : String) (f : α → Except String β) :
    ((Except.error e : Except String α) >>= f) = Except.error e := rfl

@[simp] theorem except_pure {α : Type} (a : α) : (pure a : Except String α) = Except.ok a := rfl

theorem string_data_inj {a b : String} (h : a.data = b.data) : a = b :=
  congrArg String.mk h

theorem digest_input_append (a b : List (String × String)) :
    digest_input (a ++ b) = digest_input a ++ digest_input b := by
  induction a with
  | nil => simp [digest_input]
  | cons p rest ih =>
    obtain ⟨h, t⟩ := p
    simp [digest_input, ih]

/-- A line that fails JSON parsing leaves the reader state untouched. -/
theorem collect_line_malformed (O : Oracles τ) (acc : List Seg × Option τ × List Char)
    (raw : String) (h : O.parseStr raw = none) : collect_line O acc raw = .ok acc := by
  rw [collect_line, h]
  rfl

/-- What one successful loop iteration can do to the segments and the
digest stream: leave both unchanged, or append one segment and its
header/NUL/text bytes. -/
theorem collect_line_spec (O : Oracles τ) (acc : List Seg × Option τ × List Char)
    (raw : String) (acc2 : List Seg × Option τ × List Char)
    (h : collect_line O acc raw = .ok acc2) :
    (acc2.1 = acc.1 ∧ acc2.2.2 = acc.2.2) ∨
    (∃ header text pt tsi,
      acc2.1 = acc.1 ++ [⟨header, text, header ++ ":\n" ++ pyStrip text, pt, tsi⟩] ∧
      acc2.2.2 = acc.2.2 ++ (header.data ++ '\x00' :: text.data)) := by
  rw [collect_line] at h
  cases hp : O.parseStr raw with
  | none =>
    rw [hp] at h
    dsimp only at h
    simp only [except_pure, Except.ok.injEq] at h
    subst h
    exact Or.inl ⟨rfl, rfl⟩
  | some data =>
    rw [hp] at h
    dsimp only at h
    cases hdf : record_fields data with
    | error e => rw [hdf] at h; simp at h
    | ok dataFields =>
      rw [hdf] at h
      simp only [except_bind_ok] at h
      cases hpf : payload_fields dataFields with
      | error e => rw [hpf] at h; simp at h
      | ok payload =>
        rw [hpf] at h
        simp only [except_bind_ok] at h
        cases hts : parse_timestamp O.fromiso (choose_ts_raw payload dataFields) with
        | error e => rw [hts] at h; simp at h
        | ok ts =>
          rw [hts] at h
          simp only [except_bind_ok] at h
          cases hr : render_payload O.parseStr payload with
          | error e => rw [hr] at h; simp at h
          | ok rendered =>
            rw [hr] at h
            simp only [except_bind_ok] at h
            cases rendered with
            | none =>
              simp only [except_pure, Except.ok.injEq] at h
              subst h
              exact Or.inl ⟨rfl, rfl⟩
            | some pr =>
              obtain ⟨header, text⟩ := pr
              simp only [except_pure, Except.ok.injEq] at h
              subst h
              exact Or.inr ⟨header, text, assocGet payload "type", ts.map O.isoformat, rfl, rfl⟩

theorem foldlM_collect_skip (O : Oracles τ) (bad : String) (hbad : O.parseStr bad = none) :
    ∀ (l1 l2 : List String) (acc : List Seg × Option τ × List Char),
      (l1 ++ bad :: l2).foldlM (collect_line O) acc = (l1 ++ l2).foldlM (collect_line O) acc
  | [], l2, acc => by
    show (bad :: l2).foldlM (collect_line O) acc = l2.foldlM (collect_line O) acc
    rw [List.foldlM_cons, collect_line_malformed O acc bad hbad]
    rfl
  | a :: l1, l2, acc => by
    simp only [List.cons_append, List.foldlM_cons]
    cases h : collect_line O acc a with
    | error e => rfl
    | ok acc2 =>
      simp only [except_bind_ok]
      exact foldlM_collect_skip O bad hbad l1 l2 acc2

theorem foldlM_collect_all_malformed (O : Oracles τ) :
    ∀ (lines : List String), (∀ l ∈ lines, O.parseStr l = none) →
      ∀ (acc : List Seg × Option τ × List Char),
        lines.foldlM (collect_line O) acc = .ok acc
  | [], _, acc => rfl
  | a :: rest, h, acc => by
    rw [List.foldlM_cons, collect_line_malformed O acc a (h a (by simp))]
    simp only [except_bind_ok]
    exact foldlM_collect_all_malformed O rest (fun l hm => h l (by simp [hm])) acc

/-- C8 counterexample. The line `"42"` is valid JSON but not a valid
record (a bare number): instead of being skipped, `data.get("payload")`
raises `AttributeError` and the exception aborts the whole read — the
segments already contributed by the earlier good line are lost. -/
theorem collect_segments_nonrecord_line_counterexample :
    exOracles.parseStr "42" = some (Json.num 42) ∧
    collect_segments exOracles ["m1", "42"] =
      .error "AttributeError: get on non-object record" := ⟨rfl, rfl⟩

/-- C8 (amended). Any line that fails JSON parsing is skipped without
affecting the segments, the latest timestamp or the digest contributed by
the other lines, and such a line never aborts the read; a transcript
whose lines all fail to parse yields the empty segment list (with no
timestamp and the digest of the empty stream), not an error.  (A line
that parses to a non-object aborts the read instead.) -/
theorem collect_segments_malformed_line_skipped (O : Oracles τ) (bad : String)
    (hbad : O.parseStr bad = none) :
    (∀ l1 l2, collect_segments O (l1 ++ bad :: l2) = collect_segments O (l1 ++ l2)) ∧
    (∀ lines, (∀ l ∈ lines, O.parseStr l = none) →
      collect_segments O lines = .ok ([], none, O.sha256hex [])) := by
  constructor
  · intro l1 l2
    rw [collect_segments, collect_segments, foldlM_collect_skip O bad hbad l1 l2]
  · intro lines h
    rw [collect_segments, foldlM_collect_all_malformed O lines h ([], none, [])]
    rfl

/-- Witness for C8 (amended): the unparseable line `"junk"` dropped
between two good lines. -/
theorem collect_segments_malformed_line_skipped_witness :
    exOracles.parseStr "junk" = none ∧
    collect_segments exOracles ["m1", "junk", "m2"] = collect_segments exOracles ["m1", "m2"] :=
  ⟨rfl, (collect_segments_malformed_line_skipped exOracles "junk" rfl).1 ["m1"] ["m2"]⟩

/-! ## The digest input stream (C3) -/

theorem foldlM_collect_digest (O : Oracles τ) :
    ∀ (lines : List String) (acc res : List Seg × Option τ × List Char),
      lines.foldlM (collect_line O) acc = .ok res →
      acc.2.2 = digest_input (acc.1.map (fun s => (s.header, s.text))) →
      res.2.2 = digest_input (res.1.map (fun s => (s.header, s.text)))
  | [], acc, res, h, hinv => by
    simp only [List.foldlM_nil, except_pure, Except.ok.injEq] at h
    subst h
    exact hinv
  | a :: rest, acc, res, h, hinv => by
    rw [List.foldlM_cons] at h
    cases hc : collect_line O acc a with
    | error e => rw [hc] at h; simp at h
    | ok acc2 =>
      rw [hc] at h
      simp only [except_bind_ok] at h
      refine foldlM_collect_digest O rest acc2 res h ?_
      rcases collect_line_spec O acc a acc2 hc with ⟨h1, h2⟩ | ⟨hd, tx, pt, tsi, h1, h2⟩
      · rw [h1, h2]; exact hinv
      · rw [h1, h2, List.map_append, digest_input_append, hinv]
        simp [digest_input]

theorem append_sep_inj {c : Char} :
    ∀ (a a2 b b2 : List Char), c ∉ a → c ∉ a2 →
      a ++ c :: b = a2 ++ c :: b2 → a = a2 ∧ b = b2
  | [], [], b, b2, _, _, h => by
    simp only [List.nil_append, List.cons.injEq] at h
    exact ⟨rfl, h.2⟩
  | [], x :: a2, b, b2, _, hna2, h => by
    simp only [List.nil_append, List.cons_append, List.cons.injEq] at h
    exact absurd (List.mem_cons_self x a2) (h.1 ▸ hna2)
  | x :: a, [], b, b2, hna, _, h => by
    simp only [List.cons_append, List.nil_append, List.cons.injEq] at h
    apply absurd _ hna
    rw [← h.1]
    exact List.mem_cons_self x a
  | x :: a, y :: a2, b, b2, hna, hna2, h => by
    simp only [List.cons_append, List.cons.injEq] at h
    obtain ⟨rfl, h2⟩ := h
    have := append_sep_inj a a2 b b2 (fun hm => hna (List.mem_cons_of_mem _ hm))
      (fun hm => hna2 (List.mem_cons_of_mem _ hm)) h2
    exact ⟨by rw [this.1], this.2⟩

/-- C3 counterexample. Two different transcripts — two `user_message`
lines `"a"`, `"b"` versus one `user_message` line `"aUSER_MESSAGE\x00b"` —
produce different segment streams but the identical digest input, because
the NUL separator also occurs in message content and no separator stands
between consecutive segments. -/
theorem collect_segments_digest_collision :
    (collect_segments exOracles ["m1", "m2"]).map (fun r => r.2.2) =
      (collect_segments exOracles ["m3"]).map (fun r => r.2.2) ∧
    ¬ ((collect_segments exOracles ["m1", "m2"]).map
        (fun r => r.1.map (fun s => (s.header, s.text))) =
      (collect_segments exOracles ["m3"]).map
        (fun r => r.1.map (fun s => (s.header, s.text)))) := by
  refine ⟨rfl, ?_⟩
  intro h
  rw [show (collect_segments exOracles ["m1", "m2"]).map
        (fun r => r.1.map (fun s => (s.header, s.text))) =
      Except.ok [("USER_MESSAGE", "a"), ("USER_MESSAGE", "b")] from rfl,
    show (collect_segments exOracles ["m3"]).map
        (fun r => r.1.map (fun s => (s.header, s.text))) =
      Except.ok [("USER_MESSAGE", "aUSER_MESSAGE\x00b")] from rfl] at h
  simp at h

/-- C3 (amended). The digest is the hash of the deterministic stream
`digest_input` over the segment `(header, text)` pairs in order, so
identical segment streams always digest identically; and the NUL field
separator is unambiguous exactly within one segment whose headers are
NUL-free.  Full injectivity fails: content can contain NUL and no
separator stands between segments (see the collision counterexample). -/
theorem collect_segments_digest_spec (O : Oracles τ) :
    (∀ lines segs ts d, collect_segments O lines = .ok (segs, ts, d) →
      d = O.sha256hex (digest_input (segs.map (fun s => (s.header, s.text))))) ∧
    (∀ h1 t1 h2 t2 : String, '\x00' ∉ h1.data → '\x00' ∉ h2.data →
      digest_input [(h1, t1)] = digest_input [(h2, t2)] → h1 = h2 ∧ t1 = t2) := by
  constructor
  · intro lines segs ts d h
    rw [collect_segments] at h
    cases hf : lines.foldlM (collect_line O) ([], none, []) with
    | error e => rw [hf] at h; simp at h
    | ok res =>
      rw [hf] at h
      simp only [except_bind_ok, except_pure, Except.ok.injEq, Prod.mk.injEq] at h
      obtain ⟨hsegs, _, hd⟩ := h
      have hinv := foldlM_collect_digest O lines ([], none, []) res hf rfl
      rw [← hd, hinv, hsegs]
  · intro h1 t1 h2 t2 hn1 hn2 h
    simp only [digest_input, List.append_nil] at h
    have := append_sep_inj h1.data h2.data t1.data t2.data hn1 hn2 h
    exact ⟨string_data_inj this.1, string_data_inj this.2⟩

/-- Witness for C3 (amended): the digest returned for the one-line
transcript `["m1"]` is the hash of its segment stream, and the separator
splits the NUL-free pair `("A", "B")` unambiguously. -/
theorem collect_segments_digest_spec_witness :
    ("USER_MESSAGE\x00a" : String) =
      exOracles.sha256hex (digest_input
        (([⟨"USER_MESSAGE", "a", "USER_MESSAGE:\na", some (Json.str "user_message"), none⟩] :
          List Seg).map (fun s => (s.header, s.text)))) ∧
    (("A" : String) = "A" ∧ ("B" : String) = "B") := by
  constructor
  · exact (collect_segments_digest_spec exOracles).1 ["m1"]
      [⟨"USER_MESSAGE", "a", "USER_MESSAGE:\na", some (Json.str "user_message"), none⟩]
      none "USER_MESSAGE\x00a" rfl
  · exact (collect_segments_digest_spec exOracles).2 "A" "B" "A" "B" (by decide) (by decide) rfl

/-! ## Lemmas about the refresh orchestrator -/

theorem get_entry_set_entry_self (idx : Index) (sid : String) (e : IndexEntry) :
    get_entry (set_entry idx sid e) sid = some e := by
  induction idx with
  | nil => simp [set_entry, get_entry, List.find?]
  | cons kv rest ih =>
    rw [set_entry]
    cases h : (kv.1 == sid) with
    | true => simp [get_entry, List.find?]
    | false =>
      simp only [Bool.false_eq_true, if_false]
      rw [get_entry, List.find?]
      rw [h]
      exact ih

theorem get_entry_set_entry_ne (idx : Index) (sid sid2 : String) (e : IndexEntry)
    (hne : sid2 ≠ sid) : get_entry (set_entry idx sid e) sid2 = get_entry idx sid2 := by
  induction idx with
  | nil =>
    simp only [set_entry, get_entry, List.find?]
    rw [show (sid == sid2) = false from beq_eq_false_iff_ne.2 (Ne.symm hne)]
  | cons kv rest ih =>
    rw [set_entry]
    cases h : (kv.1 == sid) with
    | true =>
      simp only [if_true]
      have hkv : kv.1 = sid := eq_of_beq h
      rw [get_entry, List.find?, get_entry, List.find?]
      rw [show (sid == sid2) = false from beq_eq_false_iff_ne.2 (Ne.symm hne)]
      rw [show (kv.1 == sid2) = false from
        beq_eq_false_iff_ne.2 (by rw [hkv]; exact Ne.symm hne)]
    | false =>
      simp only [Bool.false_eq_true, if_false]
      rw [get_entry, List.find?, get_entry, List.find?]
      cases h2 : (kv.1 == sid2) with
      | true => rfl
      | false => exact ih

theorem process_all_get_not_mem (O : Oracles τ) (maxTokens : Int) :
    ∀ (l : List String) (idx : Index) (s : String),
      s ∉ l.map derive_session_id →
      get_entry (process_all O maxTokens idx l) s = get_entry idx s
  | [], idx, s, _ => rfl
  | p :: rest, idx, s, h => by
    simp only [List.map_cons, List.mem_cons, not_or] at h
    obtain ⟨h1, h2⟩ := h
    cases hsum : summarize_session O maxTokens p with
    | error e =>
      simp only [process_all, hsum]
      exact process_all_get_not_mem O maxTokens rest idx s h2
    | ok record =>
      simp only [process_all, hsum]
      rw [process_all_get_not_mem O maxTokens rest _ s h2]
      exact get_entry_set_entry_ne idx _ s record h1

theorem process_all_get_ok (O : Oracles τ) (maxTokens : Int) :
    ∀ (l : List String) (idx : Index) (p : String) (e : IndexEntry),
      (l.map derive_session_id).Nodup → p ∈ l →
      summarize_session O maxTokens p = .ok e →
      get_entry (process_all O maxTokens idx l) (derive_session_id p) = some e
  | [], _, p, _, _, hp, _ => absurd hp (List.not_mem_nil p)
  | q :: rest, idx, p, e, hnd, hp, hsum => by
    simp only [List.map_cons, List.nodup_cons] at hnd
    obtain ⟨hq, hnd2⟩ := hnd
    rcases List.mem_cons.1 hp with rfl | hp2
    · simp only [process_all, hsum]
      rw [process_all_get_not_mem O maxTokens rest _ _ hq]
      exact get_entry_set_entry_self idx _ e
    · cases hsq : summarize_session O maxTokens q with
      | error e2 =>
        simp only [process_all, hsq]
        exact process_all_get_ok O maxTokens rest idx p e hnd2 hp2 hsum
      | ok rec2 =>
        simp only [process_all, hsq]
        exact process_all_get_ok O maxTokens rest _ p e hnd2 hp2 hsum

theorem process_all_get_err (O : Oracles τ) (maxTokens : Int) :
    ∀ (l : List String) (idx : Index) (p : String),
      (l.map derive_session_id).Nodup → p ∈ l →
      is_ok (summarize_session O maxTokens p) = false →
      get_entry (process_all O maxTokens idx l) (derive_session_id p) =
        get_entry idx (derive_session_id p)
  | [], idx, p, _, hp, _ => absurd hp (List.not_mem_nil p)
  | q :: rest, idx, p, hnd, hp, hfail => by
    simp only [List.map_cons, List.nodup_cons] at hnd
    obtain ⟨hq, hnd2⟩ := hnd
    rcases List.mem_cons.1 hp with rfl | hp2
    · cases hsq : summarize_session O maxTokens p with
      | ok rec => rw [hsq] at hfail; simp [is_ok] at hfail
      | error e =>
        simp only [process_all, hsq]
        exact process_all_get_not_mem O maxTokens rest idx _ hq
    · have hne : derive_session_id q ≠ derive_session_id p := by
        intro heq
        apply hq
        rw [heq]
        exact List.mem_map_of_mem derive_session_id hp2
      cases hsq : summarize_session O maxTokens q with
      | error e =>
        simp only [process_all, hsq]
        exact process_all_get_err O maxTokens rest idx p hnd2 hp2 hfail
      | ok rec2 =>
        simp only [process_all, hsq]
        rw [process_all_get_err O maxTokens rest _ p hnd2 hp2 hfail]
        exact get_entry_set_entry_ne idx _ _ rec2 (Ne.symm hne)

/-- Case analysis of one step of the selection loop. -/
theorem select_cons_cases (O : Oracles τ) (index : Index) (force : Bool) (p : String)
    (rest : List String) (tp : List String)
    (h : select_to_process O index force (p :: rest) = .ok tp) :
    (∃ tp2, select_to_process O index force rest = .ok tp2 ∧ tp = p :: tp2) ∨
    (select_to_process O index force rest = .ok tp ∧
      ∃ entry res, get_entry index (derive_session_id p) = some entry ∧
        collect_segments O (O.fs p) = .ok res ∧
        (res.1 = [] ∨ (res.2.2 = entry.digest ∧
          res.2.1.map O.isoformat = entry.latest_timestamp))) := by
  rw [select_to_process] at h
  cases hge : get_entry index (derive_session_id p) with
  | none =>
    rw [hge] at h
    dsimp only at h
    cases hs : select_to_process O index force rest with
    | error e => rw [hs] at h; simp at h
    | ok tp2 =>
      rw [hs] at h
      simp only [except_bind_ok, except_pure, Except.ok.injEq] at h
      exact Or.inl ⟨tp2, rfl, h.symm⟩
  | some entry =>
    rw [hge] at h
    dsimp only at h
    cases force with
    | true =>
      rw [if_pos rfl] at h
      cases hs : select_to_process O index true rest with
      | error e => rw [hs] at h; simp at h
      | ok tp2 =>
        rw [hs] at h
        simp only [except_bind_ok, except_pure, Except.ok.injEq] at h
        exact Or.inl ⟨tp2, rfl, h.symm⟩
    | false =>
      rw [if_neg (by simp)] at h
      cases hc : collect_segments O (O.fs p) with
      | error e => rw [hc] at h; simp at h
      | ok res =>
        rw [hc] at h
        simp only [except_bind_ok] at h
        by_cases he : res.1.isEmpty
        · rw [if_pos he] at h
          exact Or.inr ⟨h, entry, res, rfl, rfl,
            Or.inl (by cases hs : res.1 with
              | nil => rfl
              | cons a t => rw [hs] at he; simp at he)⟩
        · rw [if_neg he] at h
          by_cases hcond : res.2.2 ≠ entry.digest ∨
              res.2.1.map O.isoformat ≠ entry.latest_timestamp
          · rw [if_pos hcond] at h
            cases hs : select_to_process O index false rest with
            | error e => rw [hs] at h; simp at h
            | ok tp2 =>
              rw [hs] at h
              simp only [except_bind_ok, except_pure, Except.ok.injEq] at h
              exact Or.inl ⟨tp2, rfl, h.symm⟩
          · rw [if_neg hcond] at h
            push_neg at hcond
            exact Or.inr ⟨h, entry, res, rfl, rfl, Or.inr hcond⟩

theorem select_sublist (O : Oracles τ) (index : Index) (force : Bool) :
    ∀ (l tp : List String), select_to_process O index force l = .ok tp → tp.Sublist l
  | [], tp, h => by
    have h2 : (Except.ok ([] : List String) : Except String (List String)) = .ok tp := h
    simp only [Except.ok.injEq] at h2
    rw [← h2]
  | p :: rest, tp, h => by
    rcases select_cons_cases O index force p rest tp h with ⟨tp2, hs, rfl⟩ |
      ⟨hs, _, _, _, _, _⟩
    · exact (select_sublist O index force rest tp2 hs).cons₂ p
    · exact (select_sublist O index force rest tp hs).cons p

/-- Every enumerated transcript that the selection loop skipped (without
`force`) had an index entry and a fresh re-read that was empty or matched
the recorded digest and latest timestamp. -/
theorem select_skip_spec (O : Oracles τ) (index : Index) :
    ∀ (l tp : List String), select_to_process O index false l = .ok tp →
      ∀ p ∈ l, p ∉ tp →
      ∃ entry res, get_entry index (derive_session_id p) = some entry ∧
        collect_segments O (O.fs p) = .ok res ∧
        (res.1 = [] ∨ (res.2.2 = entry.digest ∧
          res.2.1.map O.isoformat = entry.latest_timestamp))
  | [], tp, _, p, hp, _ => absurd hp (List.not_mem_nil p)
  | q :: rest, tp, h, p, hp, hnp => by
    rcases select_cons_cases O index false q rest tp h with ⟨tp2, hs, rfl⟩ |
      ⟨hs, entry, res, hge, hc, hor⟩
    · rcases List.mem_cons.1 hp with rfl | hp2
      · exact absurd (List.mem_cons_self p tp2) hnp
      · exact select_skip_spec O index rest tp2 hs p hp2
          (fun hm => hnp (List.mem_cons_of_mem _ hm))
    · rcases List.mem_cons.1 hp with rfl | hp2
      · exact ⟨entry, res, hge, hc, hor⟩
      · exact select_skip_spec O index rest tp hs p hp2 hnp

/-- When every enumerated transcript has a matching (or empty) fresh
re-read against the index, the selection loop selects nothing. -/
theorem select_all_skipped (O : Oracles τ) (idx : Index) :
    ∀ (l : List String),
      (∀ p ∈ l, ∃ entry res, get_entry idx (derive_session_id p) = some entry ∧
        collect_segments O (O.fs p) = .ok res ∧
        (res.1 = [] ∨ (res.2.2 = entry.digest ∧
          res.2.1.map O.isoformat = entry.latest_timestamp))) →
      select_to_process O idx false l = .ok []
  | [], _ => rfl
  | p :: rest, h => by
    obtain ⟨entry, res, hge, hc, hor⟩ := h p (by simp)
    have hrec := select_all_skipped O idx rest (fun q hq => h q (List.mem_cons_of_mem _ hq))
    rw [select_to_process, hge]
    dsimp only
    rw [if_neg (by simp), hc]
    simp only [except_bind_ok]
    rcases hor with hemp | ⟨hd, hts⟩
    · rw [if_pos (by rw [hemp]; rfl)]
      exact hrec
    · by_cases he : res.1.isEmpty
      · rw [if_pos he]
        exact hrec
      · rw [if_neg he, if_neg (by push_neg; exact ⟨hd, hts⟩)]
        exact hrec

/-- What a successful `summarize_session` guarantees: a non-empty fresh
read whose digest and latest timestamp are exactly the stored record
fields. -/
theorem summarize_session_ok_spec (O : Oracles τ) (maxTokens : Int) (p : String)
    (e : IndexEntry) (h : summarize_session O maxTokens p = .ok e) :
    ∃ segs ts d, collect_segments O (O.fs p) = .ok (segs, ts, d) ∧ segs ≠ [] ∧
      e = ⟨d, ts.map O.isoformat⟩ := by
  rw [summarize_session] at h
  cases hc : collect_segments O (O.fs p) with
  | error e2 => rw [hc] at h; simp at h
  | ok res =>
    rw [hc] at h
    simp only [except_bind_ok] at h
    obtain ⟨segs, ts, d⟩ := res
    by_cases he : segs.isEmpty
    · rw [if_pos (by exact he)] at h
      simp [Except.instMonad, Except.bind, throw, throwThe, MonadExceptOf.throw] at h
    · rw [if_neg (by exact he)] at h
      cases hr : O.remote p with
      | error e2 => rw [hr] at h; simp at h
      | ok u =>
        rw [hr] at h
        simp only [except_bind_ok, except_pure, Except.ok.injEq] at h
        refine ⟨segs, ts, d, rfl, ?_, h.symm⟩
        intro habs
        rw [habs] at he
        exact he rfl

/-- C9 counterexample. Two transcript files in different directories
share the derived session identity `p-q-r-s-t`; the first fails (no
content) while the second succeeds, so after the batch the failed
transcript's session-identity entry is not "exactly as it was before the
run" (it was absent, now it is the other file's record). -/
theorem refresh_summaries_shared_sid_counterexample :
    is_ok (summarize_session exOracles 100 "p-q-r-s-t.jsonl") = false ∧
    refresh_summaries exOracles 100 [] ["p-q-r-s-t.jsonl", "dir/p-q-r-s-t.jsonl"] false =
      .ok ⟨["p-q-r-s-t.jsonl", "dir/p-q-r-s-t.jsonl"],
        [("p-q-r-s-t", ⟨"USER_MESSAGE\x00a", none⟩)], false⟩ ∧
    get_entry [("p-q-r-s-t", ⟨"USER_MESSAGE\x00a", none⟩)]
      (derive_session_id "p-q-r-s-t.jsonl") = some ⟨"USER_MESSAGE\x00a", none⟩ ∧
    get_entry ([] : Index) (derive_session_id "p-q-r-s-t.jsonl") = none :=
  ⟨rfl, rfl, rfl, rfl⟩

/-- C9 (amended). During batch refresh, provided the dispatched
transcripts have pairwise distinct session identities: every transcript
whose summarization fails leaves the index entry for its session identity
exactly as before the run (the fold continues with the next transcript),
and the final committed index maps every successful transcript's session
identity to its fresh record. -/
theorem refresh_summaries_failure_isolation (O : Oracles τ) (maxTokens : Int) (index : Index)
    (sessions : List String) (force : Bool) (out : RefreshOutcome)
    (h : refresh_summaries O maxTokens index sessions force = .ok out)
    (hnodup : (out.toProcess.map derive_session_id).Nodup) :
    (∀ p ∈ out.toProcess, is_ok (summarize_session O maxTokens p) = false →
      get_entry out.newIndex (derive_session_id p) = get_entry index (derive_session_id p)) ∧
    (∀ p ∈ out.toProcess, ∀ e, summarize_session O maxTokens p = .ok e →
      get_entry out.newIndex (derive_session_id p) = some e) := by
  rw [refresh_summaries] at h
  cases hs : select_to_process O index force sessions with
  | error e => rw [hs] at h; simp at h
  | ok tp =>
    rw [hs] at h
    simp only [except_bind_ok] at h
    by_cases he : tp.isEmpty
    · rw [if_pos he] at h
      simp only [except_pure, Except.ok.injEq] at h
      subst h
      constructor
      · intro p hp
        exact absurd hp (List.not_mem_nil p)
      · intro p hp
        exact absurd hp (List.not_mem_nil p)
    · rw [if_neg he] at h
      simp only [except_pure, Except.ok.injEq] at h
      subst h
      dsimp only at hnodup ⊢
      constructor
      · intro p hp hfail
        exact process_all_get_err O maxTokens tp index p hnodup hp hfail
      · intro p hp e hsum
        exact process_all_get_ok O maxTokens tp index p e hnodup hp hsum

/-- Witness for C9 (amended): one failing and one succeeding transcript
with distinct session identities. -/
theorem refresh_summaries_failure_isolation_witness :
    get_entry [("good-a-b-c-d", ⟨"USER_MESSAGE\x00a", none⟩)]
      (derive_session_id "bad-b-c-d-e.jsonl") =
      get_entry ([] : Index) (derive_session_id "bad-b-c-d-e.jsonl") ∧
    get_entry [("good-a-b-c-d", ⟨"USER_MESSAGE\x00a", none⟩)]
      (derive_session_id "good-a-b-c-d.jsonl") = some ⟨"USER_MESSAGE\x00a", none⟩ := by
  have h := refresh_summaries_failure_isolation exOracles 100 []
    ["good-a-b-c-d.jsonl", "bad-b-c-d-e.jsonl"] false
    ⟨["good-a-b-c-d.jsonl", "bad-b-c-d-e.jsonl"],
      [("good-a-b-c-d", ⟨"USER_MESSAGE\x00a", none⟩)], false⟩
    rfl (by decide)
  exact ⟨h.1 "bad-b-c-d-e.jsonl" (by simp) rfl,
    h.2 "good-a-b-c-d.jsonl" (by simp) ⟨"USER_MESSAGE\x00a", none⟩ rfl⟩

/-- C4 counterexample. A transcript holding only an unparseable line
yields zero segments, so its first refresh dispatches it, fails with "no
message content", and writes no index entry; the second refresh — with no
content change — dispatches it again instead of reporting "up to date"
with zero dispatches. -/
theorem refresh_summaries_not_idempotent_counterexample :
    refresh_summaries exOracles 100 [] ["empty-x-x-x-x.jsonl"] false =
      .ok ⟨["empty-x-x-x-x.jsonl"], [], false⟩ ∧
    refresh_summaries exOracles 100 [] ["empty-x-x-x-x.jsonl"] false ≠
      .ok ⟨[], [], true⟩ := by
  refine ⟨rfl, ?_⟩
  intro h
  rw [show refresh_summaries exOracles 100 [] ["empty-x-x-x-x.jsonl"] false =
    .ok ⟨["empty-x-x-x-x.jsonl"], [], false⟩ from rfl] at h
  simp at h

/-- C4 (amended). Running refresh twice in a row without `force` and
with no transcript content changes performs zero dispatches the second
time — reporting "up to date" and leaving the index untouched — provided
the enumerated transcripts have pairwise distinct session identities and
every transcript dispatched by the first run is successfully summarized
(each stored digest and latest timestamp then matches the fresh
re-read). -/
theorem refresh_summaries_idempotent_of_success (O : Oracles τ) (maxTokens : Int)
    (index : Index) (sessions : List String) (out1 : RefreshOutcome)
    (hnodup : (sessions.map derive_session_id).Nodup)
    (h1 : refresh_summaries O maxTokens index sessions false = .ok out1)
    (hsucc : ∀ p ∈ out1.toProcess, is_ok (summarize_session O maxTokens p) = true) :
    refresh_summaries O maxTokens out1.newIndex sessions false =
      .ok ⟨[], out1.newIndex, true⟩ := by
  rw [refresh_summaries] at h1
  cases hs : select_to_process O index false sessions with
  | error e => rw [hs] at h1; simp at h1
  | ok tp =>
    rw [hs] at h1
    simp only [except_bind_ok] at h1
    by_cases he : tp.isEmpty
    · rw [if_pos he] at h1
      simp only [except_pure, Except.ok.injEq] at h1
      subst h1
      have htp : tp = [] := by
        cases tp with
        | nil => rfl
        | cons a t => simp at he
      rw [refresh_summaries]
      dsimp only
      rw [hs, htp]
      rfl
    · rw [if_neg he] at h1
      simp only [except_pure, Except.ok.injEq] at h1
      subst h1
      dsimp only at hsucc ⊢
      have htp_sub : tp.Sublist sessions := select_sublist O index false sessions tp hs
      have htp_nodup : (tp.map derive_session_id).Nodup :=
        (htp_sub.map derive_session_id).nodup hnodup
      have hsel2 : select_to_process O (process_all O maxTokens index tp) false sessions =
          .ok [] := by
        apply select_all_skipped
        intro p hp
        by_cases hmem : p ∈ tp
        · have hok := hsucc p hmem
          cases hsum : summarize_session O maxTokens p with
          | error e2 => rw [hsum] at hok; simp [is_ok] at hok
          | ok e =>
            obtain ⟨segs, ts, d, hc, hsegs, he2⟩ := summarize_session_ok_spec O maxTokens p e hsum
            refine ⟨e, (segs, ts, d), ?_, hc, Or.inr ?_⟩
            · exact process_all_get_ok O maxTokens tp index p e htp_nodup hmem hsum
            · rw [he2]
              exact ⟨rfl, rfl⟩
        · obtain ⟨entry, res, hge, hc, hor⟩ := select_skip_spec O index sessions tp hs p hp hmem
          refine ⟨entry, res, ?_, hc, hor⟩
          rw [process_all_get_not_mem O maxTokens tp index _ ?_]
          · exact hge
          · intro hmem2
            obtain ⟨q, hq, hqe⟩ := List.mem_map.1 hmem2
            have hqp : q = p :=
              List.inj_on_of_nodup_map hnodup (htp_sub.subset hq) hp hqe
            exact hmem (hqp ▸ hq)
      rw [refresh_summaries, hsel2]
      rfl

/-- Witness for C4 (amended): one successfully summarized transcript; the
second refresh dispatches nothing and keeps the index. -/
theorem refresh_summaries_idempotent_of_success_witness :
    refresh_summaries exOracles 100 [] ["good-a-b-c-d.jsonl"] false =
      .ok ⟨["good-a-b-c-d.jsonl"], [("good-a-b-c-d", ⟨"USER_MESSAGE\x00a", none⟩)], false⟩ ∧
    refresh_summaries exOracles 100 [("good-a-b-c-d", ⟨"USER_MESSAGE\x00a", none⟩)]
        ["good-a-b-c-d.jsonl"] false =
      .ok ⟨[], [("good-a-b-c-d", ⟨"USER_MESSAGE\x00a", none⟩)], true⟩ := by
  refine ⟨rfl, ?_⟩
  exact refresh_summaries_idempotent_of_success exOracles 100 [] ["good-a-b-c-d.jsonl"]
    ⟨["good-a-b-c-d.jsonl"], [("good-a-b-c-d", ⟨"USER_MESSAGE\x00a", none⟩)], false⟩
    (by decide) rfl (by decide)

end Codextendo
